import Mathlib

/-! Formal model of the Islamic-chatbot backend (`doa.py`): text normalization and
keyword extraction, the multi-signal match scorer, intent detection, per-corpus
search with threshold and stable descending sort, deduplication by identifier,
response composition, and the `/chat` request pipeline.

Modelling conventions:
* Python `str` becomes Lean `String`; Python's whitespace class `\s` is the
  explicit character set `[ \t\n\r\x0b\x0c]`.
* Python floats become exact rationals `ℚ`.  The score arithmetic only ever
  adds the constants 0.1/0.2/0.3 and one exact division, so `ℚ` is a faithful
  idealisation; `round(x, 3)` is modelled as round-half-up to thousandths
  (Python uses round-half-even, but no property below depends on the tie rule).
* The Sastrawi stemmer is an external collaborator; every function that uses it
  takes an explicit `stem : String → String` parameter.
* JSON dict items become records with `Option` fields; a Python `KeyError` on a
  required field becomes `Except.error ()`, and the `try/except` wrapper of the
  `/chat` endpoint becomes the `Except` handler producing the ERROR payload.
* The time-based greeting's external timezone lookup and `datetime.now` are
  folded into a single `Option Nat` parameter: the resolved local hour, with
  `none` standing for the exception path that yields the fallback greeting.
-/

namespace Chatbot

/-- The fixed Indonesian stopword list (`STOPWORDS` in the source). -/
def STOPWORDS : List String :=
  ["yang", "untuk", "pada", "adalah", "dari", "di", "ke", "dalam",
   "dengan", "oleh", "ini", "itu", "dan", "atau", "akan", "ada",
   "bisa", "dapat", "juga", "lebih", "saat", "ketika", "tentang",
   "apa", "siapa", "mana", "bagaimana", "kenapa", "kapan", "dimana"]

/-- Python's regex class `\s`: the whitespace characters it matches. -/
def isPySpace (c : Char) : Bool :=
  c == ' ' || c == '\t' || c == '\n' || c == '\r' || c == '\x0b' || c == '\x0c'

/-- Characters kept by `re.sub(r"[^a-z0-9\s]", "", ·)`. -/
def keepChar (c : Char) : Bool :=
  ('a' ≤ c && c ≤ 'z') || ('0' ≤ c && c ≤ '9') || isPySpace c

/-- ASCII lowercasing, character by character (Python `str.lower()`; the
corpora and queries are Indonesian ASCII text, and any non-ASCII character is
dropped by the cleaning stage anyway). -/
def strLower (s : String) : String :=
  String.mk (s.data.map Char.toLower)

/-- Splitting a character list at separator characters (keeping empty pieces,
as Python's `re`/`str.split` machinery does before empties are discarded). -/
def splitChars (p : Char → Bool) : List Char → List Char → List String
  | [], acc => [String.mk acc.reverse]
  | c :: rest, acc =>
    if p c then String.mk acc.reverse :: splitChars p rest []
    else splitChars p rest (c :: acc)

/-- Python `str.split()` (no separator): split on whitespace runs, no empties. -/
def pySplit (s : String) : List String :=
  (splitChars isPySpace s.data []).filter (fun w => w != "")

/-- Python `sep.join(pieces)`. -/
def strJoin (sep : String) : List String → String
  | [] => ""
  | [w] => w
  | w :: rest => w ++ sep ++ strJoin sep rest

/-- Model of `normalize`: lowercase, strip, collapse whitespace runs to single spaces.
On a stripped string, `re.sub(r"\s+", " ", ·)` replaces each maximal
whitespace run by one space, which is exactly re-joining the whitespace-split
tokens with single spaces. -/
def normalize (text : String) : String :=
  strJoin " " (pySplit (strLower text))

/-- The character-cleaning stage of `preprocess`: lowercase then drop every
character outside `[a-z0-9\s]`. -/
def preprocessClean (text : String) : String :=
  String.mk ((strLower text).data.filter keepChar)

/-- Model of `preprocess`: clean and then stem the whole text. -/
def preprocess (stem : String → String) (text : String) : String :=
  stem (preprocessClean text)

/-- Model of `get_keywords`: preprocess, split, drop single-character tokens and
stopwords.  Note the source returns a Python *list*, in occurrence order,
without removing duplicates. -/
def get_keywords (stem : String → String) (text : String) : List String :=
  (pySplit (preprocess stem text)).filter
    (fun w => decide (1 < w.length) && !(STOPWORDS.contains w))

/-- Character-list prefix test. -/
def charsPre : List Char → List Char → Bool
  | [], _ => true
  | _ :: _, [] => false
  | a :: xs, b :: ys => a == b && charsPre xs ys

/-- Character-list infix test: the needle is a prefix of some suffix. -/
def charsInf (needle : List Char) : List Char → Bool
  | [] => charsPre needle []
  | c :: t => charsPre needle (c :: t) || charsInf needle t

/-- Python's substring test `needle in hay` (true for the empty needle). -/
def strContains (hay needle : String) : Bool :=
  charsInf needle.data hay.data

/-- Python `min` on two numbers. -/
def pymin (a b : ℚ) : ℚ := if a ≤ b then a else b

/-- Python `round(x, 3)` modelled over `ℚ` (round-half-up to thousandths). -/
def round3 (x : ℚ) : ℚ :=
  ((Rat.floor (x * 1000 + 1/2) : ℤ) : ℚ) / 1000

/-- Base overlap signal of `calculate_match_score`:
`len(query_set & target_words) / len(query_set)`. -/
def base_score (query_set target_words : List String) : ℚ :=
  ((query_set.filter (fun w => target_words.contains w)).length : ℚ) /
    (query_set.length : ℚ)

/-- Keyword-match bonus of `calculate_match_score`: `0.2` per query keyword
present in the union of the keywords extracted from the target's keyword
phrases.  The `Option`/emptiness guard mirrors Python's `if target_keywords:`
truthiness test (both `None` and `[]` are falsy). -/
def keyword_bonus (stem : String → String) (query_set : List String)
    (target_keywords : Option (List String)) : ℚ :=
  match target_keywords with
  | none => 0
  | some kws =>
    if kws.isEmpty then 0
    else
      let target_kw_set := ((kws.map (fun kw => get_keywords stem kw)).flatten).dedup
      ((query_set.filter (fun w => target_kw_set.contains w)).length : ℚ) * (2/10)

/-- Exact-phrase bonus of `calculate_match_score`: `0.3` when the space-joined
query keyword *list* occurs verbatim in the preprocessed target text. -/
def phrase_bonus (stem : String → String) (query_keywords : List String)
    (target_text : String) : ℚ :=
  if strContains (preprocess stem target_text) (strJoin " " query_keywords)
  then 3/10 else 0

/-- Inner loop of the partial-substring bonus: scan target words and stop at
the first pair of length-≥4 words where one contains the other (`break` in the
source), contributing `0.1`. -/
def partialLoop (qw : String) : List String → ℚ
  | [] => 0
  | tw :: rest =>
    if decide (4 ≤ qw.length) && decide (4 ≤ tw.length) &&
        (strContains tw qw || strContains qw tw)
    then 1/10
    else partialLoop qw rest

/-- Partial-substring bonus of `calculate_match_score`: sum of the inner-loop
contributions over the query word set. -/
def partial_bonus (query_set target_words : List String) : ℚ :=
  (query_set.map (fun qw => partialLoop qw target_words)).sum

/-- Model of `calculate_match_score`: base overlap + keyword bonus + phrase bonus +
partial-substring bonus, clamped to 1.0 and rounded to 3 decimals; `0.0` for an
empty query keyword set.  Python's `set(...)` is modelled by `List.dedup`. -/
def calculate_match_score (stem : String → String) (query_keywords : List String)
    (target_text : String) (target_keywords : Option (List String) := none) : ℚ :=
  let target_words := (pySplit (preprocess stem target_text)).dedup
  let query_set := query_keywords.dedup
  if query_set.isEmpty then 0
  else
    round3 (pymin (base_score query_set target_words +
      keyword_bonus stem query_set target_keywords +
      phrase_bonus stem query_keywords target_text +
      partial_bonus query_set target_words) 1)

/-- Spec-side characterisation of a query word qualifying for the
partial-substring bonus: length ≥ 4 with some target word of length ≥ 4 such
that one is a substring of the other. -/
def partialQualifies (target_words : List String) (qw : String) : Bool :=
  decide (4 ≤ qw.length) &&
    target_words.any (fun tw =>
      decide (4 ≤ tw.length) && (strContains tw qw || strContains qw tw))

/-- A corpus item as a loosely-typed JSON record: every field may be absent.
`judul`/`arti`/`latin` are used by the doa corpus, `tema`/`arti`/`kata_kunci`
by the hadis corpus. -/
structure CorpusItem where
  id : Option String
  judul : Option String
  arti : Option String
  latin : Option String
  tema : Option String
  kata_kunci : Option (List String)
deriving DecidableEq, Repr

/-- The `data` dict of a search result: the item spread together with the
added `source_type` tag (`{**item, "source_type": tag}`). -/
structure ResultData where
  item : CorpusItem
  source_type : String
deriving DecidableEq, Repr

/-- A scored search result (`{"score": ..., "data": ...}`). -/
structure ScoredResult where
  score : ℚ
  data : ResultData
deriving DecidableEq, Repr

/-- An intent rule (one entry of `intent_rules.json`). -/
structure IntentRule where
  type : String
  canonical_query : String
  keywords : List String
deriving DecidableEq, Repr

/-- The dict built by `detect_intent` for the best-scoring rule. -/
structure IntentMatch where
  name : String
  type : String
  canonical_query : String
  score : ℚ
  matched_keywords : List String
deriving DecidableEq, Repr

/-- The numeric summary block of an OK response. -/
structure Summary where
  total : ℕ
  doa_count : ℕ
  hadis_count : ℕ
  showing : ℕ
deriving DecidableEq, Repr

/-- A response payload of the `/chat` endpoint.  ASK payloads without a
`suggestions` field are modelled with an empty suggestion list. -/
inductive Payload where
  | ask (message : String) (suggestions : List String) (examples : List String)
  | ok (message : String) (data : List ScoredResult) (summary : Summary)
  | error (message : String)
deriving DecidableEq, Repr

/-- The process-wide data loaded at startup (`DOA_DATA`, `HADIS_DATA`,
`INTENTS`); intent rules keep the dict's insertion = load order as a list. -/
structure Corpora where
  doa : List CorpusItem
  hadis : List CorpusItem
  intents : List (String × IntentRule)
deriving DecidableEq, Repr

/-- Per-keyword scoring loop of `detect_intent`: `+1.0` for a lowercased
substring hit in the raw query, else `+0.5` when some stemmed keyword word is
among the query's extracted keywords; matched trigger phrases accumulate in
order. -/
def ruleScoreLoop (stem : String → String) (qLower : String) (qkws : List String) :
    List String → ℚ → List String → ℚ × List String
  | [], s, m => (s, m)
  | kw :: rest, s, m =>
    if strContains qLower (strLower kw) then
      ruleScoreLoop stem qLower qkws rest (s + 1) (m ++ [kw])
    else if (get_keywords stem kw).any (fun w => qkws.contains w) then
      ruleScoreLoop stem qLower qkws rest (s + 1/2) (m ++ [kw])
    else
      ruleScoreLoop stem qLower qkws rest s m

/-- Accumulated trigger score and matched keywords of one intent rule. -/
def ruleScore (stem : String → String) (qLower : String) (qkws : List String)
    (r : IntentRule) : ℚ × List String :=
  ruleScoreLoop stem qLower qkws r.keywords 0 []

/-- The trigger score of a named rule (for stating ranking properties). -/
def ruleScoreOf (stem : String → String) (qLower : String) (qkws : List String)
    (p : String × IntentRule) : ℚ :=
  (ruleScore stem qLower qkws p.2).1

/-- The `IntentMatch` dict `detect_intent` builds for a rule. -/
def mkIntentMatch (stem : String → String) (qLower : String) (qkws : List String)
    (p : String × IntentRule) : IntentMatch :=
  { name := p.1
    type := p.2.type
    canonical_query := p.2.canonical_query
    score := (ruleScore stem qLower qkws p.2).1
    matched_keywords := (ruleScore stem qLower qkws p.2).2 }

/-- Main loop of `detect_intent`: keep the first rule whose score strictly
exceeds the running best (`if score > best_score`). -/
def detectLoop (stem : String → String) (qLower : String) (qkws : List String) :
    List (String × IntentRule) → Option IntentMatch → ℚ → Option IntentMatch × ℚ
  | [], best, bestScore => (best, bestScore)
  | p :: rest, best, bestScore =>
    let s := ruleScoreOf stem qLower qkws p
    if bestScore < s then
      detectLoop stem qLower qkws rest (some (mkIntentMatch stem qLower qkws p)) s
    else
      detectLoop stem qLower qkws rest best bestScore

/-- Model of `detect_intent`: best rule by accumulated trigger score (first rule wins
ties), returned only when the best score reaches `0.5`. -/
def detect_intent (stem : String → String) (intents : List (String × IntentRule))
    (query : String) : Option IntentMatch :=
  let qLower := strLower query
  let qkws := get_keywords stem query
  let best := detectLoop stem qLower qkws intents none 0
  if 1/2 ≤ best.2 then best.1 else none

/-- The strong-intent test of the `/chat` routing:
`intent and intent["score"] >= 1.0`. -/
def intentStrong : Option IntentMatch → Bool
  | some m => decide (1 ≤ m.score)
  | none => false

/-- Reading a required dict field: absence raises (`KeyError`). -/
def reqField : Option String → Except Unit String
  | some s => Except.ok s
  | none => Except.error ()

/-- The descending-by-score comparison used by the stable sort. -/
def scoreGE (a b : ScoredResult) : Prop := b.score ≤ a.score

instance : DecidableRel scoreGE := fun a b => inferInstanceAs (Decidable (b.score ≤ a.score))

instance : IsTotal ScoredResult scoreGE := ⟨fun a b => le_total b.score a.score⟩

instance : IsTrans ScoredResult scoreGE := ⟨fun _ _ _ h1 h2 => le_trans h2 h1⟩

/-- Stable descending sort by score:
`sorted(results, key=lambda x: x["score"], reverse=True)`.  Python's sort is
stable; a stable sort by a key is the unique permutation that is sorted by the
key and keeps equal-key elements in input order, and insertion sort with
`scoreGE` (which keeps an earlier element before later equal-score ones)
computes exactly that permutation. -/
def sortDesc (rs : List ScoredResult) : List ScoredResult :=
  rs.insertionSort scoreGE

/-- Scoring one doa item: the searchable text is
`f"{doa['judul']} {doa['arti']} {doa.get('latin', '')}"`, so `judul` and
`arti` are required fields. -/
def doaResult (stem : String → String) (qks : List String) (d : CorpusItem) :
    Except Unit ScoredResult :=
  match reqField d.judul, reqField d.arti with
  | Except.ok judul, Except.ok arti =>
    let searchable := judul ++ " " ++ arti ++ " " ++ d.latin.getD ""
    Except.ok { score := calculate_match_score stem qks searchable none
                data := { item := d, source_type := "doa" } }
  | _, _ => Except.error ()

/-- The corpus loop of `search_doa`: score every item in corpus order, keeping
those with score above the fixed `0.1` threshold. -/
def scoredDoa (stem : String → String) (qks : List String) :
    List CorpusItem → Except Unit (List ScoredResult)
  | [] => Except.ok []
  | d :: rest =>
    match doaResult stem qks d, scoredDoa stem qks rest with
    | Except.ok r, Except.ok rs => Except.ok (if 1/10 < r.score then r :: rs else rs)
    | Except.error e, _ => Except.error e
    | _, Except.error e => Except.error e

/-- Model of `search_doa`: threshold-filtered scores, stable-sorted descending, top-K. -/
def search_doa (stem : String → String) (doaData : List CorpusItem)
    (qks : List String) (topK : ℕ := 10) : Except Unit (List ScoredResult) :=
  (scoredDoa stem qks doaData).map (fun rs => (sortDesc rs).take topK)

/-- Scoring one hadis item: searchable text `f"{hadis['tema']} {hadis['arti']}"`
with the `kata_kunci` phrase list (`hadis.get('kata_kunci', [])`) passed as the
target keywords. -/
def hadisResult (stem : String → String) (qks : List String) (h : CorpusItem) :
    Except Unit ScoredResult :=
  match reqField h.tema, reqField h.arti with
  | Except.ok tema, Except.ok arti =>
    let searchable := tema ++ " " ++ arti
    Except.ok { score := calculate_match_score stem qks searchable (some (h.kata_kunci.getD []))
                data := { item := h, source_type := "hadis" } }
  | _, _ => Except.error ()

/-- The corpus loop of `search_hadis`. -/
def scoredHadis (stem : String → String) (qks : List String) :
    List CorpusItem → Except Unit (List ScoredResult)
  | [] => Except.ok []
  | h :: rest =>
    match hadisResult stem qks h, scoredHadis stem qks rest with
    | Except.ok r, Except.ok rs => Except.ok (if 1/10 < r.score then r :: rs else rs)
    | Except.error e, _ => Except.error e
    | _, Except.error e => Except.error e

/-- Model of `search_hadis`: threshold-filtered scores, stable-sorted descending, top-K. -/
def search_hadis (stem : String → String) (hadisData : List CorpusItem)
    (qks : List String) (topK : ℕ := 10) : Except Unit (List ScoredResult) :=
  (scoredHadis stem qks hadisData).map (fun rs => (sortDesc rs).take topK)

/-- Loop of `deduplicate_by_id` with the `seen_ids` set: an entry is kept only
when its id is present, non-empty (Python truthiness) and not seen before. -/
def dedupLoop : List ScoredResult → List String → List ScoredResult
  | [], _ => []
  | r :: rest, seen =>
    match r.data.item.id with
    | none => dedupLoop rest seen
    | some i =>
      if i = "" then dedupLoop rest seen
      else if seen.contains i then dedupLoop rest seen
      else r :: dedupLoop rest (i :: seen)

/-- Model of `deduplicate_by_id`: keep the first occurrence of each identifier. -/
def deduplicate_by_id (rs : List ScoredResult) : List ScoredResult :=
  dedupLoop rs []

/-- The trailing note appended to the OK message when more than 3 results
exist: `f" (menampilkan 3 teratas dari {total} hasil)"`. -/
def truncationNote (total : ℕ) : String :=
  " (menampilkan 3 teratas dari " ++ toString total ++ " hasil)"

/-- Model of `format_response`: no-match guidance for an empty result list, otherwise
an OK payload with a per-corpus count message, at most the top 3 results, and
summary counts. -/
def format_response (results : List ScoredResult) (query : String)
    (intent : Option IntentMatch) : Payload :=
  if results.isEmpty then
    Payload.ask "Maaf, belum menemukan hasil yang sesuai üòî\n\nCoba dengan kata kunci lain ya!"
      ["Gunakan kata kunci lebih spesifik",
       "Contoh: \x27doa sebelum makan\x27, \x27hadis tentang sabar\x27"]
      ["doa keluar rumah", "hadis tentang ilmu", "doa untuk orang sakit"]
  else
    let doa_results := results.filter (fun r => r.data.source_type == "doa")
    let hadis_results := results.filter (fun r => r.data.source_type == "hadis")
    let total := results.length
    let doa_count := doa_results.length
    let hadis_count := hadis_results.length
    let message :=
      match intent with
      | some i => "‚ú® Ditemukan untuk \x27" ++ i.name ++ "\x27"
      | none =>
        if !doa_results.isEmpty && !hadis_results.isEmpty then
          "‚ú® Ditemukan " ++ toString doa_count ++ " doa dan " ++
            toString hadis_count ++ " hadis"
        else if !doa_results.isEmpty then
          "‚ú® Ditemukan " ++ toString doa_count ++ " doa"
        else
          "‚ú® Ditemukan " ++ toString hadis_count ++ " hadis"
    let message := if 3 < total then message ++ truncationNote total else message
    Payload.ok message (results.take 3) ⟨total, doa_count, hadis_count, min 3 total⟩

/-- Model of `get_time_based_greeting`, with the external timezone lookup and the
current wall clock folded into one input: the resolved local hour, where
`none` models the exception path that returns the neutral fallback. -/
def get_time_based_greeting : Option ℕ → String
  | none => "Selamat datang"
  | some h =>
    if 5 ≤ h ∧ h < 11 then "Selamat pagi"
    else if 11 ≤ h ∧ h < 15 then "Selamat siang"
    else if 15 ≤ h ∧ h < 18 then "Selamat sore"
    else "Selamat malam"

/-- The fixed greeting phrase set of the `/chat` endpoint. -/
def greetings : List String :=
  ["halo", "hai", "mulai", "assalamualaikum", "salam", "test", "tes"]

/-- The greeting ASK payload: salutation choice plus time-based greeting. -/
def greetPayload (env : Option ℕ) (query : String) : Payload :=
  let time_greeting := get_time_based_greeting env
  let salam :=
    if query = "assalamualaikum" ∨ query = "salam" then "Wa\x27alaikumsalam" else "Halo"
  Payload.ask
    (salam ++ ", " ++ time_greeting ++
      " üòä\n\nSaya Asisten Islami. Silakan tanyakan doa atau hadis yang kamu butuhkan!")
    []
    ["doa keluar rumah", "hadis tentang ilmu", "doa ketika sakit"]

/-- The intent-directed search step of `/chat` (taken when a strong intent was
detected): search the canonical query's keywords in the intent's corpus and,
when fewer than 3 results, top up from the other corpus with the original
query keywords. -/
def intentSearch (stem : String → String) (corp : Corpora) (qk : List String) :
    Option IntentMatch → Except Unit (List ScoredResult)
  | none => Except.ok []
  | some m =>
    let ck := get_keywords stem m.canonical_query
    if m.type = "doa" then
      match search_doa stem corp.doa ck with
      | Except.error e => Except.error e
      | Except.ok r =>
        if r.length < 3 then
          match search_hadis stem corp.hadis qk with
          | Except.error e => Except.error e
          | Except.ok h => Except.ok (r ++ h)
        else Except.ok r
    else
      match search_hadis stem corp.hadis ck with
      | Except.error e => Except.error e
      | Except.ok r =>
        if r.length < 3 then
          match search_doa stem corp.doa qk with
          | Except.error e => Except.error e
          | Except.ok d => Except.ok (r ++ d)
        else Except.ok r

/-- The body of the `/chat` handler (inside its `try`): early ASK returns for
empty queries, greetings and stopword-only queries, then intent detection,
searching, deduplication, re-sorting and response formatting. -/
def chatBody (stem : String → String) (corp : Corpora) (env : Option ℕ)
    (rawQuery : String) : Except Unit Payload :=
  let query := normalize rawQuery
  if query = "" then
    Except.ok (Payload.ask "Silakan ketik kebutuhan doa atau hadis üòä" []
      ["doa sebelum makan", "hadis tentang sabar", "doa naik kendaraan"])
  else if query ∈ greetings then
    Except.ok (greetPayload env query)
  else
    let query_keywords := get_keywords stem query
    if query_keywords = [] then
      Except.ok (Payload.ask "Kata kunci terlalu umum. Coba lebih spesifik ya! üòä" []
        ["doa sebelum tidur", "hadis tentang akhlak", "doa memohon rezeki"])
    else
      let intent := detect_intent stem corp.intents query
      match (if intentStrong intent then intentSearch stem corp query_keywords intent
             else Except.ok []) with
      | Except.error e => Except.error e
      | Except.ok results0 =>
        match (if results0.isEmpty || results0.length < 2 then
                 match search_doa stem corp.doa query_keywords with
                 | Except.error e => Except.error e
                 | Except.ok d =>
                   match search_hadis stem corp.hadis query_keywords with
                   | Except.error e => Except.error e
                   | Except.ok h => Except.ok (d ++ h)
               else Except.ok results0) with
        | Except.error e => Except.error e
        | Except.ok results1 =>
          Except.ok (format_response (sortDesc (deduplicate_by_id results1)) query intent)

/-- The `/chat` handler: the catch-all `except` turns any raised error into the
generic ERROR payload. -/
def chat (stem : String → String) (corp : Corpora) (env : Option ℕ)
    (rawQuery : String) : Payload :=
  match chatBody stem corp env rawQuery with
  | Except.ok p => p
  | Except.error _ => Payload.error "Maaf, terjadi kesalahan server üòî"

/-! Concrete fixtures used to evaluate the model on specific inputs. -/

/-- Empty corpora and intent table. -/
def corpEmpty : Corpora := ⟨[], [], []⟩

/-- A doa item with an id but no `judul` field. -/
def itemNoJudul : CorpusItem := ⟨some "1", none, some "makan", none, none, none⟩

/-- Corpora whose only doa item is missing the required `judul` field. -/
def corpNoJudul : Corpora := ⟨[itemNoJudul], [], []⟩

/-- A doa item with id `x` that scores 0.4 on the query `makan`. -/
def doaItemX : CorpusItem := ⟨some "x", some "makanan", some "bcd", none, none, none⟩

/-- A hadis item that also carries id `x` and scores 1.0 on `makan`. -/
def hadisItemX : CorpusItem := ⟨some "x", some "zz", some "makan", none, some "makan", none⟩

/-- An intent rule sending the trigger `makan` to the doa corpus. -/
def ruleMakan : String × IntentRule := ("doa_makan", ⟨"doa", "makan", ["makan"]⟩)

/-- Corpora where the doa and hadis corpora share the identifier `x`. -/
def corpX : Corpora := ⟨[doaItemX], [hadisItemX], [ruleMakan]⟩

/-- A one-element result list (for exercising the response composer). -/
def resFixture : List ScoredResult := [⟨1, ⟨doaItemX, "doa"⟩⟩]

end Chatbot

namespace Chatbot

/-! Helper lemmas -/

theorem rat_floor_eq (y : ℚ) : Rat.floor y = ⌊y⌋ := by
  rw [Rat.floor_def', ← Rat.floor_def]

theorem pymin_eq_min (a b : ℚ) : pymin a b = min a b := by
  rw [pymin, min_def]

theorem round3_nonneg {x : ℚ} (hx : 0 ≤ x) : 0 ≤ round3 x := by
  unfold round3
  rw [rat_floor_eq]
  have h0 : (0 : ℚ) ≤ x * 1000 + 1/2 := by linarith
  have := Int.floor_nonneg.mpr h0
  positivity

theorem round3_le_one {x : ℚ} (hx : x ≤ 1) : round3 x ≤ 1 := by
  unfold round3
  rw [rat_floor_eq]
  have h1 : x * 1000 + 1/2 ≤ 2001/2 := by linarith
  have h2 : (⌊x * 1000 + 1/2⌋ : ℤ) ≤ ⌊(2001/2 : ℚ)⌋ := Int.floor_le_floor h1
  have h3 : ⌊(2001/2 : ℚ)⌋ = 1000 := by
    rw [Int.floor_eq_iff]
    norm_num
  rw [h3] at h2
  rw [div_le_one (by norm_num)]
  exact_mod_cast h2

theorem partialLoop_eq (qw : String) (tws : List String) :
    partialLoop qw tws = if partialQualifies tws qw then (1/10 : ℚ) else 0 := by
  induction tws with
  | nil => simp [partialLoop, partialQualifies]
  | cons tw rest ih =>
    rw [partialLoop, ih]
    cases hq : decide (4 ≤ qw.length) with
    | false => simp [partialQualifies, hq]
    | true =>
      cases hb : decide (4 ≤ tw.length) && (strContains tw qw || strContains qw tw) with
      | false => simp [partialQualifies, hq, hb]
      | true => simp [partialQualifies, hq, hb]

theorem partial_bonus_count (qs tws : List String) :
    partial_bonus qs tws =
      (1/10 : ℚ) * ((qs.filter (partialQualifies tws)).length : ℚ) := by
  induction qs with
  | nil => simp [partial_bonus]
  | cons q rest ih =>
    simp only [partial_bonus, List.map_cons, List.sum_cons] at ih ⊢
    rw [partialLoop_eq, List.filter_cons]
    cases hb : partialQualifies tws q with
    | false => simpa [hb] using ih
    | true =>
      simp only [hb, if_true, List.length_cons, ih]
      push_cast
      ring

theorem base_score_nonneg (qs tws : List String) : 0 ≤ base_score qs tws := by
  unfold base_score
  positivity

theorem keyword_bonus_nonneg (stem : String → String) (qs : List String)
    (tkws : Option (List String)) : 0 ≤ keyword_bonus stem qs tkws := by
  unfold keyword_bonus
  match tkws with
  | none => simp
  | some kws =>
    dsimp only
    split
    · simp
    · positivity

theorem phrase_bonus_nonneg (stem : String → String) (qks : List String)
    (tt : String) : 0 ≤ phrase_bonus stem qks tt := by
  unfold phrase_bonus
  split <;> norm_num

theorem partial_bonus_nonneg (qs tws : List String) : 0 ≤ partial_bonus qs tws := by
  rw [partial_bonus_count]
  positivity

/-! Claim theorems -/

/-- C1: the Match Scorer's partial-substring bonus adds exactly 0.1 per query
keyword of length ≥ 4 that has at least one target word of length ≥ 4 with one
string a substring of the other (the inner scan stops at the first such target
word), and is never accumulated per (query word, target word) pair: for the
scorer's query keyword set and target word set, the bonus equals 0.1 times the
number of qualifying query keywords. -/
theorem partial_bonus_per_query_keyword (stem : String → String)
    (query_keywords : List String) (target_text : String) :
    partial_bonus query_keywords.dedup ((pySplit (preprocess stem target_text)).dedup) =
      (1/10 : ℚ) * ((query_keywords.dedup.filter
        (partialQualifies ((pySplit (preprocess stem target_text)).dedup))).length : ℚ) :=
  partial_bonus_count _ _

/-- C2: for every query keyword list, target text and optional keyword-phrase
list, `calculate_match_score` returns a value in [0, 1] that is an exact
multiple of 1/1000 (3 decimal places), and — whenever the query keyword set is
non-empty — equals `round3 (min (base + keyword bonus + phrase bonus + partial
bonus) 1)`. -/
theorem score_bounded_and_rounded (stem : String → String) (qks : List String)
    (tt : String) (tkws : Option (List String)) :
    0 ≤ calculate_match_score stem qks tt tkws ∧
    calculate_match_score stem qks tt tkws ≤ 1 ∧
    (∃ n : ℤ, calculate_match_score stem qks tt tkws = (n : ℚ) / 1000) ∧
    (qks.dedup ≠ [] →
      calculate_match_score stem qks tt tkws =
        round3 (min (base_score qks.dedup ((pySplit (preprocess stem tt)).dedup) +
          keyword_bonus stem qks.dedup tkws +
          phrase_bonus stem qks tt +
          partial_bonus qks.dedup ((pySplit (preprocess stem tt)).dedup)) 1)) := by
  have key : calculate_match_score stem qks tt tkws =
      if qks.dedup.isEmpty then (0 : ℚ) else
        round3 (min (base_score qks.dedup ((pySplit (preprocess stem tt)).dedup) +
          keyword_bonus stem qks.dedup tkws +
          phrase_bonus stem qks tt +
          partial_bonus qks.dedup ((pySplit (preprocess stem tt)).dedup)) 1) := by
    simp only [calculate_match_score]
    rw [pymin_eq_min]
  rw [key]
  by_cases h : qks.dedup.isEmpty = true
  · rw [if_pos h]
    exact ⟨le_refl 0, by norm_num, ⟨0, by norm_num⟩,
      fun hne => absurd (List.isEmpty_iff.mp h) hne⟩
  · rw [if_neg h]
    have hS0 : 0 ≤ base_score qks.dedup ((pySplit (preprocess stem tt)).dedup) +
        keyword_bonus stem qks.dedup tkws +
        phrase_bonus stem qks tt +
        partial_bonus qks.dedup ((pySplit (preprocess stem tt)).dedup) := by
      have h1 := base_score_nonneg qks.dedup ((pySplit (preprocess stem tt)).dedup)
      have h2 := keyword_bonus_nonneg stem qks.dedup tkws
      have h3 := phrase_bonus_nonneg stem qks tt
      have h4 := partial_bonus_nonneg qks.dedup ((pySplit (preprocess stem tt)).dedup)
      linarith
    exact ⟨round3_nonneg (le_min hS0 zero_le_one), round3_le_one (min_le_right _ _),
      ⟨Rat.floor ((min (base_score qks.dedup ((pySplit (preprocess stem tt)).dedup) +
          keyword_bonus stem qks.dedup tkws +
          phrase_bonus stem qks tt +
          partial_bonus qks.dedup ((pySplit (preprocess stem tt)).dedup)) 1) * 1000 + 1/2),
        rfl⟩,
      fun _ => rfl⟩

/-- Witness for C2 at a concrete input with a non-empty keyword set. -/
theorem score_bounded_and_rounded_witness :
    calculate_match_score id ["makan"] "makan" none =
      round3 (min (base_score (["makan"].dedup) ((pySplit (preprocess id "makan")).dedup) +
        keyword_bonus id (["makan"].dedup) none +
        phrase_bonus id ["makan"] "makan" +
        partial_bonus (["makan"].dedup) ((pySplit (preprocess id "makan")).dedup)) 1) :=
  (score_bounded_and_rounded id ["makan"] "makan" none).2.2.2 (by decide)

/-- Counterexample for C6: `get_keywords` returns a Python list and does not
remove duplicates, so its result is not the claimed duplicate-free set. -/
theorem get_keywords_returns_duplicates :
    get_keywords id "makan makan" = ["makan", "makan"] ∧
    ¬ (get_keywords id "makan makan").Nodup := by
  constructor
  · rfl
  · decide

/-- C6 (amended): `get_keywords` returns the list of stemmed tokens in
occurrence order, possibly with duplicates; every returned token has length
> 1 and is outside the stopword list, and — provided the external stemmer maps
the empty text to itself — empty input yields the empty list rather than
failing. -/
theorem get_keywords_tokens_filtered (stem : String → String) (text : String) :
    (∀ w ∈ get_keywords stem text, 1 < w.length ∧ w ∉ STOPWORDS) ∧
    (stem "" = "" → get_keywords stem "" = []) := by
  constructor
  · intro w hw
    unfold get_keywords at hw
    have hcond := List.of_mem_filter hw
    simp only [Bool.and_eq_true, decide_eq_true_eq, Bool.not_eq_true'] at hcond
    refine ⟨hcond.1, fun hmem => ?_⟩
    have : STOPWORDS.contains w = true := List.elem_eq_true_of_mem hmem
    rw [this] at hcond
    exact absurd hcond.2 (by simp)
  · intro h
    have h0 : preprocessClean "" = "" := rfl
    rw [get_keywords, preprocess, h0, h]
    rfl

/-- Witness for C6 (amended) at concrete inputs. -/
theorem get_keywords_tokens_filtered_witness :
    (∀ w ∈ get_keywords id "doa makan", 1 < w.length ∧ w ∉ STOPWORDS) ∧
    get_keywords id "" = [] :=
  ⟨(get_keywords_tokens_filtered id "doa makan").1,
   (get_keywords_tokens_filtered id "").2 rfl⟩

/-- Counterexample for C7: two query keyword lists denoting the same keyword
set can score differently against the same target, because the phrase bonus
joins the keyword *list* in order. -/
theorem score_depends_on_keyword_order :
    (["doa", "makan"] : List String).toFinset = (["makan", "doa"] : List String).toFinset ∧
    calculate_match_score id ["doa", "makan"] "sidoa makan" none ≠
      calculate_match_score id ["makan", "doa"] "sidoa makan" none := by
  constructor
  · decide
  · with_unfolding_all decide

/-- C7 (amended): the Match Scorer is a pure function of the query keyword
list, target text and keyword-phrase list (no hidden state); two keyword lists
with the same keyword set *and* the same space-joined string receive the same
score — order independence holds for every component except the phrase bonus,
which reads the joined list. -/
theorem score_function_of_inputs (stem : String → String) (qks1 qks2 : List String)
    (tt : String) (tkws : Option (List String))
    (hset : qks1.toFinset = qks2.toFinset)
    (hjoin : strJoin " " qks1 = strJoin " " qks2) :
    calculate_match_score stem qks1 tt tkws = calculate_match_score stem qks2 tt tkws := by
  have hmem : ∀ a : String, a ∈ qks1 ↔ a ∈ qks2 := by
    intro a
    rw [← List.mem_toFinset, hset, List.mem_toFinset]
  have hperm : qks1.dedup.Perm qks2.dedup :=
    (List.perm_ext_iff_of_nodup (List.nodup_dedup _) (List.nodup_dedup _)).mpr
      (fun a => by simp only [List.mem_dedup]; exact hmem a)
  have hempty : qks1.dedup.isEmpty = qks2.dedup.isEmpty := by
    cases h1 : qks1.dedup with
    | nil =>
      rw [h1] at hperm
      rw [hperm.nil_eq]
    | cons a t =>
      cases h2 : qks2.dedup with
      | nil =>
        rw [h1, h2] at hperm
        exact absurd hperm.eq_nil (by simp)
      | cons b s => rfl
  simp only [calculate_match_score]
  set TW := (pySplit (preprocess stem tt)).dedup with hTW
  rw [hempty]
  by_cases he : qks2.dedup.isEmpty = true
  · rw [if_pos he, if_pos he]
  · rw [if_neg he, if_neg he]
    have hb : base_score qks1.dedup TW = base_score qks2.dedup TW := by
      unfold base_score
      rw [(hperm.filter _).length_eq, hperm.length_eq]
    have hk : keyword_bonus stem qks1.dedup tkws = keyword_bonus stem qks2.dedup tkws := by
      unfold keyword_bonus
      cases tkws with
      | none => rfl
      | some kws =>
        dsimp only
        split
        · rfl
        · rw [(hperm.filter _).length_eq]
    have hp : phrase_bonus stem qks1 tt = phrase_bonus stem qks2 tt := by
      unfold phrase_bonus
      rw [hjoin]
    have hpa : partial_bonus qks1.dedup TW = partial_bonus qks2.dedup TW := by
      rw [partial_bonus_count, partial_bonus_count, (hperm.filter _).length_eq]
    rw [hb, hk, hp, hpa]

/-- Witness for C7 (amended): the hypotheses are satisfied by identical lists. -/
theorem score_function_of_inputs_witness :
    calculate_match_score id ["makan"] "apa" none =
      calculate_match_score id ["makan"] "apa" none :=
  score_function_of_inputs id ["makan"] ["makan"] "apa" none rfl rfl

/-- C3: for every non-empty result list, the composed OK payload carries at
most 3 results (`results[:3]`), its summary satisfies
`showing = min 3 total` with `total` the length of the (deduplicated) result
pool handed to the composer, and when `total > 3` the message carries the
"top 3 of N" note. -/
theorem format_response_truncates (results : List ScoredResult) (query : String)
    (intent : Option IntentMatch) (h : results ≠ []) :
    ∃ m, format_response results query intent =
        Payload.ok m (results.take 3)
          ⟨results.length,
           (results.filter (fun r => r.data.source_type == "doa")).length,
           (results.filter (fun r => r.data.source_type == "hadis")).length,
           min 3 results.length⟩ ∧
      (results.take 3).length ≤ 3 ∧
      (3 < results.length → ∃ pre, m = pre ++ truncationNote results.length) := by
  have hne : results.isEmpty = false := by
    cases results with
    | nil => exact absurd rfl h
    | cons a t => rfl
  simp only [format_response, hne, Bool.false_eq_true, if_false]
  refine ⟨_, rfl, ?_, ?_⟩
  · simp
  · intro h3
    rw [if_pos h3]
    exact ⟨_, rfl⟩

/-- Witness for C3 at a concrete one-element result list. -/
theorem format_response_truncates_witness :
    ∃ m, format_response resFixture "makan" none =
        Payload.ok m (resFixture.take 3)
          ⟨resFixture.length,
           (resFixture.filter (fun r => r.data.source_type == "doa")).length,
           (resFixture.filter (fun r => r.data.source_type == "hadis")).length,
           min 3 resFixture.length⟩ ∧
      (resFixture.take 3).length ≤ 3 ∧
      (3 < resFixture.length → ∃ pre, m = pre ++ truncationNote resFixture.length) :=
  format_response_truncates resFixture "makan" none (by decide)

/-- Invariant of `detect_intent`'s main loop: starting from best `b` with best
score `bs`, either no rule beats `bs` and the state is unchanged, or the
result is the first rule whose score strictly exceeds every earlier rule's
score (and `bs`), and that score bounds every rule's score. -/
theorem detectLoop_spec (stem : String → String) (qL : String) (qk : List String) :
    ∀ (rules : List (String × IntentRule)) (b : Option IntentMatch) (bs : ℚ),
      (detectLoop stem qL qk rules b bs = (b, bs) ∧
        ∀ p ∈ rules, ruleScoreOf stem qL qk p ≤ bs) ∨
      (∃ i, ∃ hi : i < rules.length,
        (detectLoop stem qL qk rules b bs).1 =
          some (mkIntentMatch stem qL qk (rules.get ⟨i, hi⟩)) ∧
        (detectLoop stem qL qk rules b bs).2 = ruleScoreOf stem qL qk (rules.get ⟨i, hi⟩) ∧
        bs < (detectLoop stem qL qk rules b bs).2 ∧
        (∀ j, ∀ hj : j < rules.length, j < i →
          ruleScoreOf stem qL qk (rules.get ⟨j, hj⟩) < (detectLoop stem qL qk rules b bs).2) ∧
        (∀ p ∈ rules, ruleScoreOf stem qL qk p ≤ (detectLoop stem qL qk rules b bs).2))
  | [], b, bs => Or.inl ⟨rfl, by simp⟩
  | p :: rest, b, bs => by
    by_cases h : bs < ruleScoreOf stem qL qk p
    · have hstep : detectLoop stem qL qk (p :: rest) b bs =
          detectLoop stem qL qk rest (some (mkIntentMatch stem qL qk p))
            (ruleScoreOf stem qL qk p) := by
        simp only [detectLoop, if_pos h]
      rcases detectLoop_spec stem qL qk rest (some (mkIntentMatch stem qL qk p))
          (ruleScoreOf stem qL qk p) with ⟨heq, hall⟩ | ⟨i, hi, h1, h2, h3, h4, h5⟩
      · refine Or.inr ⟨0, by simp, ?_, ?_, ?_, ?_, ?_⟩
        · rw [hstep, heq]; rfl
        · rw [hstep, heq]; rfl
        · rw [hstep, heq]; exact h
        · intro j hj hji; omega
        · intro q hq
          rw [hstep, heq]
          rcases List.mem_cons.mp hq with hq | hq
          · subst hq; exact le_refl _
          · exact hall q hq
      · refine Or.inr ⟨i + 1, by simpa using hi, ?_, ?_, ?_, ?_, ?_⟩
        · rw [hstep]; simpa using h1
        · rw [hstep]; simpa using h2
        · rw [hstep]; exact lt_trans h h3
        · intro j hj hji
          rw [hstep]
          cases j with
          | zero => simpa using lt_of_le_of_lt (le_refl _) h3
          | succ j' =>
            have hj' : j' < rest.length := by simpa using hj
            have := h4 j' hj' (by omega)
            simpa using this
        · intro q hq
          rw [hstep]
          rcases List.mem_cons.mp hq with hq | hq
          · subst hq; exact le_of_lt h3
          · exact h5 q hq
    · have hstep : detectLoop stem qL qk (p :: rest) b bs =
          detectLoop stem qL qk rest b bs := by
        simp only [detectLoop, if_neg h]
      rcases detectLoop_spec stem qL qk rest b bs with ⟨heq, hall⟩ | ⟨i, hi, h1, h2, h3, h4, h5⟩
      · refine Or.inl ⟨by rw [hstep, heq], ?_⟩
        intro q hq
        rcases List.mem_cons.mp hq with hq | hq
        · subst hq; exact not_lt.mp h
        · exact hall q hq
      · refine Or.inr ⟨i + 1, by simpa using hi, ?_, ?_, ?_, ?_, ?_⟩
        · rw [hstep]; simpa using h1
        · rw [hstep]; simpa using h2
        · rw [hstep]; exact h3
        · intro j hj hji
          rw [hstep]
          cases j with
          | zero => exact lt_of_le_of_lt (not_lt.mp h) h3
          | succ j' =>
            have hj' : j' < rest.length := by simpa using hj
            have := h4 j' hj' (by omega)
            simpa using this
        · intro q hq
          rw [hstep]
          rcases List.mem_cons.mp hq with hq | hq
          · subst hq; exact le_of_lt (lt_of_le_of_lt (not_lt.mp h) h3)
          · exact h5 q hq

/-- C8: `detect_intent` returns the rule with the strictly highest accumulated
trigger score (first rule in load order wins ties: every earlier rule scores
strictly lower, every rule scores at most as high); a rule is returned only if
its score is at least 0.5, otherwise none is, and the `/chat` routing's strong
test holds exactly when the returned intent's score is at least 1.0. -/
theorem detect_intent_best_rule (stem : String → String)
    (intents : List (String × IntentRule)) (query : String) :
    (∀ m, detect_intent stem intents query = some m →
      1/2 ≤ m.score ∧
      (∀ p ∈ intents,
        ruleScoreOf stem (strLower query) (get_keywords stem query) p ≤ m.score) ∧
      (∃ i, ∃ hi : i < intents.length,
        m = mkIntentMatch stem (strLower query) (get_keywords stem query)
              (intents.get ⟨i, hi⟩) ∧
        m.score = ruleScoreOf stem (strLower query) (get_keywords stem query)
              (intents.get ⟨i, hi⟩) ∧
        ∀ j, ∀ hj : j < intents.length, j < i →
          ruleScoreOf stem (strLower query) (get_keywords stem query)
              (intents.get ⟨j, hj⟩) < m.score)) ∧
    (detect_intent stem intents query = none →
      ∀ p ∈ intents,
        ruleScoreOf stem (strLower query) (get_keywords stem query) p < 1/2) ∧
    (∀ io : Option IntentMatch, intentStrong io = true ↔ ∃ m, io = some m ∧ 1 ≤ m.score) := by
  have hspec := detectLoop_spec stem (strLower query) (get_keywords stem query) intents none 0
  have hdef : detect_intent stem intents query =
      if 1/2 ≤ (detectLoop stem (strLower query) (get_keywords stem query) intents none 0).2
      then (detectLoop stem (strLower query) (get_keywords stem query) intents none 0).1
      else none := rfl
  refine ⟨?_, ?_, ?_⟩
  · intro m hm
    rw [hdef] at hm
    by_cases hge : 1/2 ≤ (detectLoop stem (strLower query) (get_keywords stem query) intents none 0).2
    · rw [if_pos hge] at hm
      rcases hspec with ⟨heq, -⟩ | ⟨i, hi, h1, h2, h3, h4, h5⟩
      · rw [heq] at hge; norm_num at hge
      · rw [h1] at hm
        have hmm := Option.some.inj hm
        subst hmm
        rw [h2] at hge h4 h5
        exact ⟨hge, h5, ⟨i, hi, rfl, rfl, fun j hj hji => h4 j hj hji⟩⟩
    · rw [if_neg hge] at hm
      exact absurd hm (by simp)
  · intro hnone p hp
    rw [hdef] at hnone
    by_cases hge : 1/2 ≤ (detectLoop stem (strLower query) (get_keywords stem query) intents none 0).2
    · rw [if_pos hge] at hnone
      rcases hspec with ⟨heq, -⟩ | ⟨i, hi, h1, h2, h3, h4, h5⟩
      · rw [heq] at hge; norm_num at hge
      · rw [h1] at hnone; exact absurd hnone (by simp)
    · have hlt := not_le.mp hge
      rcases hspec with ⟨heq, hall⟩ | ⟨i, hi, h1, h2, h3, h4, h5⟩
      · have := hall p hp
        rw [heq] at hlt
        calc ruleScoreOf stem (strLower query) (get_keywords stem query) p ≤ 0 := by
              simpa using this
          _ < 1/2 := by norm_num
      · exact lt_of_le_of_lt (h5 p hp) hlt
  · intro io
    cases io with
    | none => simp [intentStrong]
    | some m => simp [intentStrong]

/-- Witness for C8: on the one-rule table `ruleMakan` and query `makan`, the
returned intent is the first (and only) rule with score 1. -/
theorem detect_intent_best_rule_witness :
    (1/2 : ℚ) ≤ (mkIntentMatch id (strLower "makan") (get_keywords id "makan") ruleMakan).score ∧
    (∀ p ∈ [ruleMakan],
      ruleScoreOf id (strLower "makan") (get_keywords id "makan") p ≤
        (mkIntentMatch id (strLower "makan") (get_keywords id "makan") ruleMakan).score) ∧
    (∃ i, ∃ hi : i < [ruleMakan].length,
      mkIntentMatch id (strLower "makan") (get_keywords id "makan") ruleMakan =
        mkIntentMatch id (strLower "makan") (get_keywords id "makan")
          ([ruleMakan].get ⟨i, hi⟩) ∧
      (mkIntentMatch id (strLower "makan") (get_keywords id "makan") ruleMakan).score =
        ruleScoreOf id (strLower "makan") (get_keywords id "makan")
          ([ruleMakan].get ⟨i, hi⟩) ∧
      ∀ j, ∀ hj : j < [ruleMakan].length, j < i →
        ruleScoreOf id (strLower "makan") (get_keywords id "makan")
            ([ruleMakan].get ⟨j, hj⟩) <
          (mkIntentMatch id (strLower "makan") (get_keywords id "makan") ruleMakan).score) :=
  (detect_intent_best_rule id [ruleMakan] "makan").1
    (mkIntentMatch id (strLower "makan") (get_keywords id "makan") ruleMakan)
    (by with_unfolding_all decide)

theorem sortDesc_sorted (rs : List ScoredResult) : (sortDesc rs).Pairwise scoreGE :=
  List.sorted_insertionSort scoreGE rs

theorem sortDesc_perm (rs : List ScoredResult) : List.Perm (sortDesc rs) rs :=
  List.perm_insertionSort scoreGE rs

/-- Stability of the descending sort: the subsequence of results carrying any
fixed score is unchanged by sorting. -/
theorem sortDesc_filter_eq (rs : List ScoredResult) (s : ℚ) :
    (sortDesc rs).filter (fun r => decide (r.score = s)) =
      rs.filter (fun r => decide (r.score = s)) := by
  have hsub : List.Sublist (rs.filter (fun r => decide (r.score = s))) (sortDesc rs) := by
    apply List.sublist_insertionSort
    · apply List.pairwise_of_forall_mem_list
      intro a ha b hb
      have ha' := (List.mem_filter.mp ha).2
      have hb' := (List.mem_filter.mp hb).2
      simp only [decide_eq_true_eq] at ha' hb'
      show b.score ≤ a.score
      rw [ha', hb']
    · exact List.filter_sublist rs
  have hsub2 : List.Sublist (rs.filter (fun r => decide (r.score = s)))
      ((sortDesc rs).filter (fun r => decide (r.score = s))) := by
    have h2 := hsub.filter (fun r => decide (r.score = s))
    simpa [List.filter_filter] using h2
  have hlen : ((sortDesc rs).filter (fun r => decide (r.score = s))).length =
      (rs.filter (fun r => decide (r.score = s))).length :=
    ((sortDesc_perm rs).filter _).length_eq
  exact (hsub2.eq_of_length hlen.symm).symm

theorem doaResult_item (stem : String → String) (qks : List String)
    (d : CorpusItem) (r : ScoredResult) (h : doaResult stem qks d = Except.ok r) :
    r.data.item = d := by
  unfold doaResult at h
  cases hj : reqField d.judul with
  | error e => rw [hj] at h; cases ha : reqField d.arti <;> rw [ha] at h <;> simp at h
  | ok j =>
    cases ha : reqField d.arti with
    | error e => rw [hj, ha] at h; simp at h
    | ok a =>
      rw [hj, ha] at h
      cases h
      rfl

theorem hadisResult_item (stem : String → String) (qks : List String)
    (d : CorpusItem) (r : ScoredResult) (h : hadisResult stem qks d = Except.ok r) :
    r.data.item = d := by
  unfold hadisResult at h
  cases hj : reqField d.tema with
  | error e => rw [hj] at h; cases ha : reqField d.arti <;> rw [ha] at h <;> simp at h
  | ok j =>
    cases ha : reqField d.arti with
    | error e => rw [hj, ha] at h; simp at h
    | ok a =>
      rw [hj, ha] at h
      cases h
      rfl

theorem scoredDoa_ok_props (stem : String → String) (qks : List String) :
    ∀ (l : List CorpusItem) (out : List ScoredResult),
      scoredDoa stem qks l = Except.ok out →
      (∀ r ∈ out, 1/10 < r.score) ∧ List.Sublist (out.map (fun r => r.data.item)) l
  | [], out, h => by
    cases h
    simp
  | d :: rest, out, h => by
    rw [scoredDoa] at h
    cases hfd : doaResult stem qks d with
    | error e => rw [hfd] at h; cases hrec : scoredDoa stem qks rest <;> rw [hrec] at h <;> simp at h
    | ok r =>
      cases hrec : scoredDoa stem qks rest with
      | error e => rw [hfd, hrec] at h; simp at h
      | ok rs =>
        rw [hfd, hrec] at h
        cases h
        obtain ⟨hthr, hsub⟩ := scoredDoa_ok_props stem qks rest rs hrec
        have hitem := doaResult_item stem qks d r hfd
        by_cases hsc : 1/10 < r.score
        · rw [if_pos hsc]
          refine ⟨?_, ?_⟩
          · intro x hx
            rcases List.mem_cons.mp hx with hx | hx
            · subst hx; exact hsc
            · exact hthr x hx
          · simpa [hitem] using hsub.cons₂ d
        · rw [if_neg hsc]
          exact ⟨hthr, hsub.cons d⟩

theorem scoredHadis_ok_props (stem : String → String) (qks : List String) :
    ∀ (l : List CorpusItem) (out : List ScoredResult),
      scoredHadis stem qks l = Except.ok out →
      (∀ r ∈ out, 1/10 < r.score) ∧ List.Sublist (out.map (fun r => r.data.item)) l
  | [], out, h => by
    cases h
    simp
  | d :: rest, out, h => by
    rw [scoredHadis] at h
    cases hfd : hadisResult stem qks d with
    | error e => rw [hfd] at h; cases hrec : scoredHadis stem qks rest <;> rw [hrec] at h <;> simp at h
    | ok r =>
      cases hrec : scoredHadis stem qks rest with
      | error e => rw [hfd, hrec] at h; simp at h
      | ok rs =>
        rw [hfd, hrec] at h
        cases h
        obtain ⟨hthr, hsub⟩ := scoredHadis_ok_props stem qks rest rs hrec
        have hitem := hadisResult_item stem qks d r hfd
        by_cases hsc : 1/10 < r.score
        · rw [if_pos hsc]
          refine ⟨?_, ?_⟩
          · intro x hx
            rcases List.mem_cons.mp hx with hx | hx
            · subst hx; exact hsc
            · exact hthr x hx
          · simpa [hitem] using hsub.cons₂ d
        · rw [if_neg hsc]
          exact ⟨hthr, hsub.cons d⟩

theorem search_doa_ok_shape (stem : String → String) (cd : List CorpusItem)
    (qks : List String) (outd : List ScoredResult)
    (hd : search_doa stem cd qks = Except.ok outd) :
    ∃ pre, scoredDoa stem qks cd = Except.ok pre ∧ outd = (sortDesc pre).take 10 := by
  unfold search_doa at hd
  cases hpre : scoredDoa stem qks cd with
  | error e => rw [hpre] at hd; simp [Except.map] at hd
  | ok pre =>
    rw [hpre] at hd
    simp only [Except.map] at hd
    cases hd
    exact ⟨pre, rfl, rfl⟩

theorem search_hadis_ok_shape (stem : String → String) (ch : List CorpusItem)
    (qks : List String) (outh : List ScoredResult)
    (hh : search_hadis stem ch qks = Except.ok outh) :
    ∃ pre, scoredHadis stem qks ch = Except.ok pre ∧ outh = (sortDesc pre).take 10 := by
  unfold search_hadis at hh
  cases hpre : scoredHadis stem qks ch with
  | error e => rw [hpre] at hh; simp [Except.map] at hh
  | ok pre =>
    rw [hpre] at hh
    simp only [Except.map] at hh
    cases hh
    exact ⟨pre, rfl, rfl⟩

/-- Common ranking facts for a top-10 truncation of a stable descending sort
over a corpus-order pre-list. -/
theorem searchPost (pre out : List ScoredResult)
    (hthr : ∀ r ∈ pre, 1/10 < r.score)
    (hout : out = (sortDesc pre).take 10) :
    out.length ≤ 10 ∧ (∀ r ∈ out, 1/10 < r.score) ∧
      out.Pairwise (fun a b => b.score ≤ a.score) ∧
      ∀ s : ℚ, List.Sublist (out.filter (fun r => decide (r.score = s)))
        (pre.filter (fun r => decide (r.score = s))) := by
  subst hout
  refine ⟨List.length_take_le _ _, ?_, ?_, ?_⟩
  · intro r hr
    have h1 : r ∈ sortDesc pre := (List.take_sublist _ _).subset hr
    exact hthr r ((sortDesc_perm pre).subset h1)
  · exact (sortDesc_sorted pre).sublist (List.take_sublist _ _)
  · intro s
    have h1 := (List.take_sublist 10 (sortDesc pre)).filter
      (fun r => decide (r.score = s))
    rwa [sortDesc_filter_eq] at h1

/-- C4: for every corpus and query keyword list, each Corpus Searcher returns
at most `topK = 10` results, every returned score exceeds the fixed `0.1`
threshold, scores are non-increasing, and results carrying equal scores appear
in the same relative order as in the threshold-filtered corpus-order pre-list
`pre`, whose items are in corpus order (`pre.map item` is a sublist of the
corpus). -/
theorem search_ranked (stem : String → String) (cd ch : List CorpusItem)
    (qks : List String) (outd outh : List ScoredResult)
    (hd : search_doa stem cd qks = Except.ok outd)
    (hh : search_hadis stem ch qks = Except.ok outh) :
    (outd.length ≤ 10 ∧ (∀ r ∈ outd, 1/10 < r.score) ∧
      outd.Pairwise (fun a b => b.score ≤ a.score) ∧
      ∃ pre, scoredDoa stem qks cd = Except.ok pre ∧
        List.Sublist (pre.map (fun r => r.data.item)) cd ∧
        (∀ s : ℚ, List.Sublist (outd.filter (fun r => decide (r.score = s)))
          (pre.filter (fun r => decide (r.score = s))))) ∧
    (outh.length ≤ 10 ∧ (∀ r ∈ outh, 1/10 < r.score) ∧
      outh.Pairwise (fun a b => b.score ≤ a.score) ∧
      ∃ pre, scoredHadis stem qks ch = Except.ok pre ∧
        List.Sublist (pre.map (fun r => r.data.item)) ch ∧
        (∀ s : ℚ, List.Sublist (outh.filter (fun r => decide (r.score = s)))
          (pre.filter (fun r => decide (r.score = s))))) := by
  constructor
  · obtain ⟨pre, hpre, hout⟩ := search_doa_ok_shape stem cd qks outd hd
    obtain ⟨hthr, hsubc⟩ := scoredDoa_ok_props stem qks cd pre hpre
    obtain ⟨hlen, hthr', hsorted, hstable⟩ := searchPost pre outd hthr hout
    exact ⟨hlen, hthr', hsorted, pre, hpre, hsubc, hstable⟩
  · obtain ⟨pre, hpre, hout⟩ := search_hadis_ok_shape stem ch qks outh hh
    obtain ⟨hthr, hsubc⟩ := scoredHadis_ok_props stem qks ch pre hpre
    obtain ⟨hlen, hthr', hsorted, hstable⟩ := searchPost pre outh hthr hout
    exact ⟨hlen, hthr', hsorted, pre, hpre, hsubc, hstable⟩

/-- Witness for C4: the searches over the one-item corpora `[doaItemX]` and
`[hadisItemX]` on query `makan` yield the concrete outputs scored 0.4 and 1. -/
theorem search_ranked_witness :
    (([⟨2/5, ⟨doaItemX, "doa"⟩⟩] : List ScoredResult).length ≤ 10 ∧
      (∀ r ∈ ([⟨2/5, ⟨doaItemX, "doa"⟩⟩] : List ScoredResult), 1/10 < r.score) ∧
      ([⟨2/5, ⟨doaItemX, "doa"⟩⟩] : List ScoredResult).Pairwise
        (fun a b => b.score ≤ a.score) ∧
      ∃ pre, scoredDoa id ["makan"] [doaItemX] = Except.ok pre ∧
        List.Sublist (pre.map (fun r => r.data.item)) [doaItemX] ∧
        (∀ s : ℚ, List.Sublist
          (([⟨2/5, ⟨doaItemX, "doa"⟩⟩] : List ScoredResult).filter
            (fun r => decide (r.score = s)))
          (pre.filter (fun r => decide (r.score = s))))) ∧
    (([⟨1, ⟨hadisItemX, "hadis"⟩⟩] : List ScoredResult).length ≤ 10 ∧
      (∀ r ∈ ([⟨1, ⟨hadisItemX, "hadis"⟩⟩] : List ScoredResult), 1/10 < r.score) ∧
      ([⟨1, ⟨hadisItemX, "hadis"⟩⟩] : List ScoredResult).Pairwise
        (fun a b => b.score ≤ a.score) ∧
      ∃ pre, scoredHadis id ["makan"] [hadisItemX] = Except.ok pre ∧
        List.Sublist (pre.map (fun r => r.data.item)) [hadisItemX] ∧
        (∀ s : ℚ, List.Sublist
          (([⟨1, ⟨hadisItemX, "hadis"⟩⟩] : List ScoredResult).filter
            (fun r => decide (r.score = s)))
          (pre.filter (fun r => decide (r.score = s))))) :=
  search_ranked id [doaItemX] [hadisItemX] ["makan"]
    [⟨2/5, ⟨doaItemX, "doa"⟩⟩] [⟨1, ⟨hadisItemX, "hadis"⟩⟩]
    (by with_unfolding_all rfl) (by with_unfolding_all rfl)

/-- C5 (failing evaluation): deduplication keeps the *first* occurrence of an
identifier, not the highest-scoring one.  On the query `makan` against
`corpX`, the intent path merges the doa result (id `x`, score 0.4) with the
hadis result (same id `x`, score 1.0); the pipeline's final OK payload retains
the 0.4 entry and drops the 1.0 one. -/
theorem dedup_keeps_first_not_highest :
    deduplicate_by_id [⟨2/5, ⟨doaItemX, "doa"⟩⟩, ⟨1, ⟨hadisItemX, "hadis"⟩⟩] =
      [⟨2/5, ⟨doaItemX, "doa"⟩⟩] ∧
    doaItemX.id = hadisItemX.id ∧
    (2/5 : ℚ) < 1 ∧
    chat id corpX none "makan" =
      Payload.ok "‚ú® Ditemukan untuk 'doa_makan'"
        [⟨2/5, ⟨doaItemX, "doa"⟩⟩] ⟨1, 1, 0, 1⟩ := by
  refine ⟨by with_unfolding_all rfl, rfl, by norm_num, by with_unfolding_all rfl⟩

/-- Counterexample for C9: on the greeting query `halo` the payload depends on
the current local hour, so two runs of the pipeline (when the hour changed
between them) return different ResponsePayloads. -/
theorem chat_greeting_depends_on_time :
    chat id corpEmpty (some 10) "halo" ≠ chat id corpEmpty (some 12) "halo" := by
  with_unfolding_all decide

/-- C9 (amended): the pipeline is deterministic — identical payloads for two
runs — for every query that does not hit the greeting branch; greeting queries
consult the wall clock, so their payloads agree only when the resolved local
hour yields the same greeting. -/
theorem chat_deterministic_for_non_greetings (stem : String → String)
    (corp : Corpora) (env1 env2 : Option ℕ) (raw : String)
    (h : normalize raw ∉ greetings) :
    chat stem corp env1 raw = chat stem corp env2 raw := by
  unfold chat chatBody
  by_cases h0 : normalize raw = ""
  · rw [if_pos h0, if_pos h0]
  · rw [if_neg h0, if_neg h0, if_neg h, if_neg h]

/-- Witness for C9 (amended) on a concrete non-greeting query. -/
theorem chat_deterministic_for_non_greetings_witness :
    chat id corpEmpty (some 10) "makan" = chat id corpEmpty (some 12) "makan" :=
  chat_deterministic_for_non_greetings id corpEmpty (some 10) (some 12) "makan"
    (by decide)

/-- Counterexample for C10: a corpus item missing the required `judul` field
raises during scoring, and the catch-all turns the whole request into the
ERROR payload instead of skipping the item. -/
theorem chat_missing_field_errors :
    chat id corpNoJudul none "makan" =
      Payload.error "Maaf, terjadi kesalahan server üòî" := by
  with_unfolding_all rfl

theorem scoredDoa_cons_ok {stem : String → String} {qks : List String}
    {d : CorpusItem} {rest : List CorpusItem} {r : ScoredResult}
    {out : List ScoredResult}
    (h1 : doaResult stem qks d = Except.ok r)
    (h2 : scoredDoa stem qks rest = Except.ok out) :
    scoredDoa stem qks (d :: rest) =
      Except.ok (if 1/10 < r.score then r :: out else out) := by
  simp only [scoredDoa]
  rw [h1, h2]

theorem scoredHadis_cons_ok {stem : String → String} {qks : List String}
    {d : CorpusItem} {rest : List CorpusItem} {r : ScoredResult}
    {out : List ScoredResult}
    (h1 : hadisResult stem qks d = Except.ok r)
    (h2 : scoredHadis stem qks rest = Except.ok out) :
    scoredHadis stem qks (d :: rest) =
      Except.ok (if 1/10 < r.score then r :: out else out) := by
  simp only [scoredHadis]
  rw [h1, h2]

theorem scoredDoa_total (stem : String → String) (qks : List String) :
    ∀ l : List CorpusItem, (∀ d ∈ l, d.judul ≠ none ∧ d.arti ≠ none) →
      ∃ out, scoredDoa stem qks l = Except.ok out
  | [], _ => ⟨[], rfl⟩
  | d :: rest, hl => by
    obtain ⟨hj, ha⟩ := hl d (List.mem_cons_self d rest)
    obtain ⟨out, hout⟩ :=
      scoredDoa_total stem qks rest (fun x hx => hl x (List.mem_cons_of_mem d hx))
    cases hjv : d.judul with
    | none => exact absurd hjv hj
    | some j =>
      cases hav : d.arti with
      | none => exact absurd hav ha
      | some a =>
        have hres : doaResult stem qks d = Except.ok
            { score := calculate_match_score stem qks
                (j ++ " " ++ a ++ " " ++ d.latin.getD "") none
              data := { item := d, source_type := "doa" } } := by
          unfold doaResult
          rw [hjv, hav]
          rfl
        exact ⟨_, scoredDoa_cons_ok hres hout⟩

theorem scoredHadis_total (stem : String → String) (qks : List String) :
    ∀ l : List CorpusItem, (∀ d ∈ l, d.tema ≠ none ∧ d.arti ≠ none) →
      ∃ out, scoredHadis stem qks l = Except.ok out
  | [], _ => ⟨[], rfl⟩
  | d :: rest, hl => by
    obtain ⟨hj, ha⟩ := hl d (List.mem_cons_self d rest)
    obtain ⟨out, hout⟩ :=
      scoredHadis_total stem qks rest (fun x hx => hl x (List.mem_cons_of_mem d hx))
    cases hjv : d.tema with
    | none => exact absurd hjv hj
    | some t =>
      cases hav : d.arti with
      | none => exact absurd hav ha
      | some a =>
        have hres : hadisResult stem qks d = Except.ok
            { score := calculate_match_score stem qks (t ++ " " ++ a)
                (some (d.kata_kunci.getD []))
              data := { item := d, source_type := "hadis" } } := by
          unfold hadisResult
          rw [hjv, hav]
          rfl
        exact ⟨_, scoredHadis_cons_ok hres hout⟩

theorem search_doa_total (stem : String → String) (cd : List CorpusItem)
    (qks : List String) (hd : ∀ d ∈ cd, d.judul ≠ none ∧ d.arti ≠ none) :
    ∃ out, search_doa stem cd qks = Except.ok out := by
  obtain ⟨pre, hpre⟩ := scoredDoa_total stem qks cd hd
  refine ⟨(sortDesc pre).take 10, ?_⟩
  unfold search_doa
  rw [hpre]
  rfl

theorem search_hadis_total (stem : String → String) (ch : List CorpusItem)
    (qks : List String) (hh : ∀ d ∈ ch, d.tema ≠ none ∧ d.arti ≠ none) :
    ∃ out, search_hadis stem ch qks = Except.ok out := by
  obtain ⟨pre, hpre⟩ := scoredHadis_total stem qks ch hh
  refine ⟨(sortDesc pre).take 10, ?_⟩
  unfold search_hadis
  rw [hpre]
  rfl

theorem intentSearch_total (stem : String → String) (corp : Corpora)
    (qk : List String) (intent : Option IntentMatch)
    (hd : ∀ d ∈ corp.doa, d.judul ≠ none ∧ d.arti ≠ none)
    (hh : ∀ x ∈ corp.hadis, x.tema ≠ none ∧ x.arti ≠ none) :
    ∃ out, intentSearch stem corp qk intent = Except.ok out := by
  cases intent with
  | none => exact ⟨[], rfl⟩
  | some m =>
    by_cases ht : m.type = "doa"
    · obtain ⟨r, hr⟩ :=
        search_doa_total stem corp.doa (get_keywords stem m.canonical_query) hd
      by_cases hlen : r.length < 3
      · obtain ⟨hres, hhres⟩ := search_hadis_total stem corp.hadis qk hh
        refine ⟨r ++ hres, ?_⟩
        simp only [intentSearch]
        rw [if_pos ht, hr]
        dsimp only
        rw [if_pos hlen, hhres]
      · refine ⟨r, ?_⟩
        simp only [intentSearch]
        rw [if_pos ht, hr]
        dsimp only
        rw [if_neg hlen]
    · obtain ⟨r, hr⟩ :=
        search_hadis_total stem corp.hadis (get_keywords stem m.canonical_query) hh
      by_cases hlen : r.length < 3
      · obtain ⟨dres, hdres⟩ := search_doa_total stem corp.doa qk hd
        refine ⟨r ++ dres, ?_⟩
        simp only [intentSearch]
        rw [if_neg ht, hr]
        dsimp only
        rw [if_pos hlen, hdres]
      · refine ⟨r, ?_⟩
        simp only [intentSearch]
        rw [if_neg ht, hr]
        dsimp only
        rw [if_neg hlen]

theorem dedupLoop_mem : ∀ (rs : List ScoredResult) (seen : List String)
    (r : ScoredResult), r ∈ dedupLoop rs seen →
      r ∈ rs ∧ ∃ i, r.data.item.id = some i ∧ i ≠ ""
  | [], seen, r, h => by simp [dedupLoop] at h
  | x :: rest, seen, r, h => by
    simp only [dedupLoop] at h
    cases hid : x.data.item.id with
    | none =>
      rw [hid] at h
      obtain ⟨h1, h2⟩ := dedupLoop_mem rest seen r h
      exact ⟨List.mem_cons_of_mem x h1, h2⟩
    | some i =>
      rw [hid] at h
      dsimp only at h
      by_cases hie : i = ""
      · rw [if_pos hie] at h
        obtain ⟨h1, h2⟩ := dedupLoop_mem rest seen r h
        exact ⟨List.mem_cons_of_mem x h1, h2⟩
      · rw [if_neg hie] at h
        by_cases hseen : seen.contains i = true
        · rw [if_pos hseen] at h
          obtain ⟨h1, h2⟩ := dedupLoop_mem rest seen r h
          exact ⟨List.mem_cons_of_mem x h1, h2⟩
        · rw [if_neg hseen] at h
          rcases List.mem_cons.mp h with hr | hr
          · subst hr
            exact ⟨List.mem_cons_self _ _, ⟨i, hid, hie⟩⟩
          · obtain ⟨h1, h2⟩ := dedupLoop_mem rest (i :: seen) r hr
            exact ⟨List.mem_cons_of_mem x h1, h2⟩

/-- C10 (amended): an item missing its *identifier* is skipped silently by
deduplication (every retained entry comes from the input and has a non-empty
id), and when every corpus item carries its required text fields the request
body always succeeds, so no DataGap of that kind produces an ERROR payload;
but an item missing a required text field (`judul`/`arti` for doa,
`tema`/`arti` for hadis) raises, and the request returns the ERROR payload
rather than skipping the item (shown by the counterexample). -/
theorem chat_ok_when_fields_present (stem : String → String) (corp : Corpora)
    (env : Option ℕ) (raw : String)
    (hd : ∀ d ∈ corp.doa, d.judul ≠ none ∧ d.arti ≠ none)
    (hh : ∀ x ∈ corp.hadis, x.tema ≠ none ∧ x.arti ≠ none) :
    (∃ p, chatBody stem corp env raw = Except.ok p) ∧
    (∀ rs : List ScoredResult, ∀ r ∈ deduplicate_by_id rs,
      r ∈ rs ∧ ∃ i, r.data.item.id = some i ∧ i ≠ "") := by
  constructor
  · simp only [chatBody]
    by_cases h0 : normalize raw = ""
    · rw [if_pos h0]; exact ⟨_, rfl⟩
    · rw [if_neg h0]
      by_cases hg : normalize raw ∈ greetings
      · rw [if_pos hg]; exact ⟨_, rfl⟩
      · rw [if_neg hg]
        by_cases hqk : get_keywords stem (normalize raw) = []
        · rw [if_pos hqk]; exact ⟨_, rfl⟩
        · rw [if_neg hqk]
          obtain ⟨r0, hr0⟩ : ∃ r0,
              (if intentStrong (detect_intent stem corp.intents (normalize raw)) then
                intentSearch stem corp (get_keywords stem (normalize raw))
                  (detect_intent stem corp.intents (normalize raw))
              else Except.ok []) = Except.ok r0 := by
            by_cases hstrong : intentStrong
                (detect_intent stem corp.intents (normalize raw)) = true
            · rw [if_pos hstrong]
              exact intentSearch_total stem corp (get_keywords stem (normalize raw))
                (detect_intent stem corp.intents (normalize raw)) hd hh
            · rw [if_neg hstrong]; exact ⟨[], rfl⟩
          rw [hr0]
          dsimp only
          by_cases hc : (r0.isEmpty || decide (r0.length < 2)) = true
          · obtain ⟨dres, hdres⟩ :=
              search_doa_total stem corp.doa (get_keywords stem (normalize raw)) hd
            obtain ⟨hres, hhres⟩ :=
              search_hadis_total stem corp.hadis (get_keywords stem (normalize raw)) hh
            rw [if_pos hc, hdres]
            dsimp only
            rw [hhres]
            exact ⟨_, rfl⟩
          · rw [if_neg hc]
            exact ⟨_, rfl⟩
  · intro rs r hr
    exact dedupLoop_mem rs [] r hr

/-- Witness for C10 (amended) on the well-formed corpora `corpX`. -/
theorem chat_ok_when_fields_present_witness :
    (∃ p, chatBody id corpX none "makan" = Except.ok p) ∧
    (∀ rs : List ScoredResult, ∀ r ∈ deduplicate_by_id rs,
      r ∈ rs ∧ ∃ i, r.data.item.id = some i ∧ i ≠ "") :=
  chat_ok_when_fields_present id corpX none "makan" (by decide) (by decide)

end Chatbot
